import Mathlib

/-!
Verification development for the Adaptive Retrieval-and-Selection Review Engine
(PULL-PANDA). The engine core (knowledge store, retriever, strategy selector,
static-analysis merger, orchestrator) is specified in spec.md; the repository
ships its dashboard client and black-box test reports. Definitions below are a
shallow embedding: the selector, retriever, merger and orchestrator are
modelled from the spec (the engine source is not in the repository snapshot),
while `apiFetch` is translated from the dashboard client source. Rewards and
similarity scores are modelled as rationals (exact arithmetic standing in for
floats).
-/

namespace PRReview

/-- Modelled from the spec: the fixed closed set of reasoning strategies
(§3 Strategy). -/
inductive Strategy
  | ZeroShot
  | ChainOfThought
  | TreeOfThought
  | SelfConsistency
  | Meta
deriving DecidableEq, Repr, Fintype

open Strategy

/-- Modelled from the spec: the fixed strategy priority order used for
deterministic tie-breaking (§4.3): ZeroShot > ChainOfThought > TreeOfThought >
SelfConsistency > Meta. -/
def priorityIndex : Strategy → Nat
  | ZeroShot => 0
  | ChainOfThought => 1
  | TreeOfThought => 2
  | SelfConsistency => 3
  | Meta => 4

/-- Modelled from the spec: per-(bucket, strategy) statistics
`{trials : int, totalReward : float}` (§3 SelectorState); the float is
modelled as a rational. -/
structure StrategyStats where
  trials : Nat
  totalReward : ℚ
deriving DecidableEq, Repr

/-- Modelled from the spec: the persisted mapping from a context bucket key to
per-strategy statistics (§3 SelectorState), represented as an association
list keyed by (bucket key, strategy). -/
def SelectorState : Type := List ((String × Strategy) × StrategyStats)

instance : DecidableEq SelectorState :=
  inferInstanceAs (DecidableEq (List ((String × Strategy) × StrategyStats)))

/-- Modelled from the spec: lookup of a bucket/strategy entry; unseen keys
start with `trials = 0` (§4.3). -/
def getStats : SelectorState → String → Strategy → StrategyStats
  | [], _, _ => ⟨0, 0⟩
  | e :: rest, k, s => if e.1 = (k, s) then e.2 else getStats rest k s

/-- Modelled from the spec: `update(bucketKey, strategy, reward)` increments
`trials` and adds `reward` to `totalReward` for that pair (§4.3); per §5 the
read-modify-write is serialized (mutex / single-writer), so each update is
atomic. -/
def updateStats : SelectorState → String → Strategy → ℚ → SelectorState
  | [], k, s, r => [((k, s), ⟨1, r⟩)]
  | e :: rest, k, s, r =>
    if e.1 = (k, s) then (e.1, ⟨e.2.trials + 1, e.2.totalReward + r⟩) :: rest
    else e :: updateStats rest k s r

/-- Modelled from the spec: optimistic initial value used for the average
reward of an untried strategy (§3: treated as optimistic-initial when
`trials = 0`); the top of the reward range [0,1]. -/
def optimisticInitial : ℚ := 1

/-- Modelled from the spec: average reward of a strategy in a bucket,
`totalReward / trials`, optimistic-initial when `trials = 0` (§3, §4.3). -/
def avgReward (st : SelectorState) (key : String) (s : Strategy) : ℚ :=
  let e := getStats st key s
  if e.trials = 0 then optimisticInitial else e.totalReward / (e.trials : ℚ)

/-- Average reward written literally as the ratio `totalReward / trials`
(meaningful when `trials ≠ 0`). -/
def ratioReward (st : SelectorState) (key : String) (s : Strategy) : ℚ :=
  (getStats st key s).totalReward / ((getStats st key s).trials : ℚ)

/-- Modelled from the spec: the exploitation arm of `select` — the strategy
with the highest average reward for the bucket, ties broken by the fixed
priority order (§4.3). Scanning the priority order keeping the current best
and replacing it only on a strictly larger average implements the
tie-breaking. -/
def bestOf (f : Strategy → ℚ) : Strategy → List Strategy → Strategy
  | best, [] => best
  | best, s :: rest => bestOf f (if f best < f s then s else best) rest

/-- Modelled from the spec: greedy strategy choice for a bucket (§4.3). -/
def greedySelect (st : SelectorState) (key : String) : Strategy :=
  bestOf (avgReward st key) ZeroShot [ChainOfThought, TreeOfThought, SelfConsistency, Meta]

/-- Modelled from the spec: epsilon-greedy `select` (§4.3): with probability ε
pick a uniformly random strategy, otherwise pick greedily. The random draw in
[0,1) and the random strategy are passed explicitly. -/
def select (st : SelectorState) (key : String) (eps randVal : ℚ)
    (randStrat : Strategy) : Strategy :=
  if randVal < eps then randStrat else greedySelect st key

/-- Modelled from the spec: the string form of a strategy used in the
persisted record and in `ReviewResult.strategyUsed` (§6). -/
def strategyName : Strategy → String
  | ZeroShot => "Zero-shot"
  | ChainOfThought => "Chain-of-Thought"
  | TreeOfThought => "Tree-of-Thought"
  | SelfConsistency => "Self-Consistency"
  | Meta => "Meta"

/-- Decoder for `strategyName`, failing on unknown names. -/
def strategyOfName (n : String) : Option Strategy :=
  if n = "Zero-shot" then some ZeroShot
  else if n = "Chain-of-Thought" then some ChainOfThought
  else if n = "Tree-of-Thought" then some TreeOfThought
  else if n = "Self-Consistency" then some SelfConsistency
  else if n = "Meta" then some Meta
  else none

/-- Modelled from the spec: the durable selector-state record — one flat entry
per (bucketKey, strategy) with its trials and totalReward (§6). -/
def saveState (st : SelectorState) : List (String × String × ℕ × ℚ) :=
  st.map (fun e => (e.1.1, strategyName e.1.2, e.2.trials, e.2.totalReward))

/-- Modelled from the spec: loading the persisted record back into a
`SelectorState`, failing if a strategy name does not decode (§6). -/
def loadState : List (String × String × ℕ × ℚ) → Option SelectorState
  | [] => some []
  | (k, n, t, w) :: rest =>
    match strategyOfName n, loadState rest with
    | some s, some st => some (((k, s), ⟨t, w⟩) :: st)
    | _, _ => none

/-- Modelled from the spec: the engine error taxonomy (§7). -/
inductive EngineError
  | notFoundError
  | emptyStoreError
  | generationError
  | toolUnavailable
  | persistenceError
deriving DecidableEq, Repr

/-- Modelled from the spec: a rule document with its embedding (§3
KnowledgeDocument); embeddings are rational vectors. -/
structure KnowledgeDocument where
  id : ℕ
  text : String
  embedding : List ℚ
  tags : List String
deriving DecidableEq, Repr

/-- Modelled from the spec: the Knowledge Store holding the ingested corpus
(§4.1). -/
structure KnowledgeStore where
  docs : List KnowledgeDocument
deriving DecidableEq, Repr

/-- Modelled from the spec: `ingest(documents)` replaces the entire corpus
atomically (§4.1 full replace); document ids are assigned by position and
embeddings are computed by the black-box embedding collaborator (§6). -/
def ingest (embed : String → List ℚ) (input : List (String × List String))
    (_prev : KnowledgeStore) : KnowledgeStore :=
  ⟨input.enum.map (fun p => ⟨p.1, p.2.1, embed p.2.1, p.2.2⟩)⟩

/-- Modelled from the spec: the ranking order on scored documents — similarity
score descending, ties broken by document id ascending (§4.1, §3
RetrievedContext). -/
def rankRel (a b : KnowledgeDocument × ℚ) : Prop :=
  b.2 < a.2 ∨ (a.2 = b.2 ∧ a.1.id ≤ b.1.id)

instance : DecidableRel rankRel := fun a b => by
  unfold rankRel; infer_instance

instance : IsTotal (KnowledgeDocument × ℚ) rankRel where
  total a b := by
    rcases lt_trichotomy a.2 b.2 with h | h | h
    · exact Or.inr (Or.inl h)
    · rcases Nat.le_total a.1.id b.1.id with hid | hid
      · exact Or.inl (Or.inr ⟨h, hid⟩)
      · exact Or.inr (Or.inr ⟨h.symm, hid⟩)
    · exact Or.inl (Or.inl h)

instance : IsTrans (KnowledgeDocument × ℚ) rankRel where
  trans a b c hab hbc := by
    rcases hab with h1 | ⟨h1, h1'⟩ <;> rcases hbc with h2 | ⟨h2, h2'⟩
    · exact Or.inl (lt_trans h2 h1)
    · exact Or.inl (h2 ▸ h1)
    · exact Or.inl (h1 ▸ h2)
    · exact Or.inr ⟨h1.trans h2, le_trans h1' h2'⟩

/-- Modelled from the spec: scoring and ranking of the whole corpus against a
query vector; the similarity function (cosine similarity in the design, §4.1)
is passed as a parameter. -/
def rankDocs (sim : List ℚ → List ℚ → ℚ) (v : List ℚ)
    (docs : List KnowledgeDocument) : List (KnowledgeDocument × ℚ) :=
  List.insertionSort rankRel (docs.map (fun d => (d, sim v d.embedding)))

/-- Modelled from the spec: `query(vector, k)` returns the k nearest documents
by similarity, ties broken by id ascending, and fails with `EmptyStoreError`
if no documents are ingested (§4.1). -/
def query (sim : List ℚ → List ℚ → ℚ) (store : KnowledgeStore) (v : List ℚ)
    (k : ℕ) : Except EngineError (List (KnowledgeDocument × ℚ)) :=
  if store.docs = [] then .error .emptyStoreError
  else .ok ((rankDocs sim v store.docs).take k)

/-- Modelled from the spec: a single file diff of a change set (§3). -/
structure FileDiff where
  path : String
  language : String
  addedLines : ℕ
  removedLines : ℕ
  hunkText : String
deriving DecidableEq, Repr

/-- Modelled from the spec: a normalized change set, the immutable input of one
review cycle (§3). -/
structure ChangeSet where
  owner : String
  repo : String
  number : ℕ
  files : List FileDiff
  totalLines : ℕ
deriving DecidableEq, Repr

/-- Modelled from the spec: the fixed per-file cap on hunk text kept in the
query representation (§4.2; the exact cap value is unspecified, a constant is
chosen). -/
def perFileHunkCap : ℕ := 2000

/-- Modelled from the spec: the query representation built from changed-file
paths, languages and (deterministically truncated) hunk text (§4.2). -/
def queryText (cs : ChangeSet) : String :=
  String.intercalate "\n"
    (cs.files.map (fun f => f.path ++ " " ++ f.language ++ " " ++ f.hunkText.take perFileHunkCap))

/-- Modelled from the spec: the fixed retrieval top-K (design default K = 8,
§4.2). -/
def topK : ℕ := 8

/-- Modelled from the spec: deduplication of a scored document list by
document id, keeping the first (best-ranked) occurrence (§3
RetrievedContext). -/
def dedupById : List (KnowledgeDocument × ℚ) → List (KnowledgeDocument × ℚ)
  | [] => []
  | p :: rest => p :: dedupById (rest.filter (fun q => q.1.id ≠ p.1.id))
termination_by l => l.length
decreasing_by
  simp only [List.length_cons]
  exact Nat.lt_succ_of_le (List.length_filter_le _ _)

/-- Modelled from the spec: `retrieve(changeSet)` — embed the query text,
query the store with the fixed top-K, deduplicate by id and drop documents
below the minimum-relevance floor; an empty store degrades to an empty
context instead of failing (§4.2, §7 EmptyStoreError). -/
def retrieve (sim : List ℚ → List ℚ → ℚ) (embed : String → List ℚ) (minScore : ℚ)
    (cs : ChangeSet) (store : KnowledgeStore) : List (KnowledgeDocument × ℚ) :=
  match query sim store (embed (queryText cs)) topK with
  | .error _ => []
  | .ok ranked => (dedupById ranked).filter (fun p => minScore ≤ p.2)

/-- Modelled from the spec: finding severity (§3). -/
inductive Severity
  | info
  | warning
  | fatal
deriving DecidableEq, Repr

/-- Modelled from the spec: a normalized static-analysis finding
`{file, line, severity, ruleId, message}` (§3). -/
structure Finding where
  file : String
  line : ℕ
  severity : Severity
  ruleId : String
  message : String
deriving DecidableEq, Repr

/-- Modelled from the spec: the result of one black-box static-analysis
adapter call: raw findings (already in the normalized field shape) or
`ToolUnavailable` (§1, §4.4). -/
inductive AdapterResult
  | available (findings : List Finding)
  | toolUnavailable
deriving DecidableEq, Repr

/-- Rule id reserved for the informational degraded-coverage finding the
merger records for a language whose adapter is unavailable (§4.4). -/
def degradedRuleId (lang : String) : String := "degraded-coverage/" ++ lang

/-- Modelled from the spec: the single informational finding recorded when a
language's adapter signals `ToolUnavailable` (§4.4). -/
def degradedFinding (lang : String) : Finding :=
  ⟨"", 0, Severity.info, degradedRuleId lang, "static analysis unavailable for " ++ lang⟩

/-- Modelled from the spec: the distinct languages of a change set — the
merger makes one adapter call per distinct language present (§4.4). -/
def distinctLanguages (cs : ChangeSet) : List String :=
  (cs.files.map (fun f => f.language)).dedup

/-- Severity rank used for ordering: error > warning > info (§4.4). -/
def severityRank : Severity → ℕ
  | Severity.fatal => 2
  | Severity.warning => 1
  | Severity.info => 0

/-- Modelled from the spec: merger result ordering — file path ascending, then
line ascending, then severity descending (§4.4). -/
def findingLE (a b : Finding) : Prop :=
  a.file < b.file ∨ (a.file = b.file ∧
    (a.line < b.line ∨ (a.line = b.line ∧ severityRank b.severity ≤ severityRank a.severity)))

instance : DecidableRel findingLE := fun a b => by
  unfold findingLE; infer_instance

/-- Deduplication key of a finding: `(file, line, ruleId)` (§3). -/
def findingKey (f : Finding) : String × ℕ × String := (f.file, f.line, f.ruleId)

/-- Modelled from the spec: deduplication of findings with identical
`(file, line, ruleId)` (§3), keeping the first occurrence. -/
def dedupFindings : List Finding → List Finding
  | [] => []
  | f :: rest => f :: dedupFindings (rest.filter (fun g => findingKey g ≠ findingKey f))
termination_by l => l.length
decreasing_by
  simp only [List.length_cons]
  exact Nat.lt_succ_of_le (List.length_filter_le _ _)

/-- Modelled from the spec: `analyze(changeSet)` — one adapter call per
distinct language; a `ToolUnavailable` adapter contributes a single
informational degraded-coverage finding instead of failing; results are
deduplicated and sorted (§4.4). -/
def analyze (adapters : String → AdapterResult) (cs : ChangeSet) : List Finding :=
  List.insertionSort findingLE (dedupFindings ((distinctLanguages cs).flatMap (fun lang =>
    match adapters lang with
    | AdapterResult.available fs => fs
    | AdapterResult.toolUnavailable => [degradedFinding lang])))

/-- Modelled from the spec: the `ReviewResult` output record (§3, §6);
`contextUsed` is the ordered list of (documentId, score). -/
structure ReviewResult where
  strategyUsed : Strategy
  contextUsed : List (ℕ × ℚ)
  generatedText : String
  findings : List Finding
  outcomeSignal : ℚ
deriving DecidableEq, Repr

/-- Modelled from the spec: the caller-visible cycle outcome — one of
Rejected, Completed(ReviewResult), Failed(reason) (§6, §7). -/
inductive RunResult
  | rejected
  | completed (r : ReviewResult)
  | failed (e : EngineError)
deriving DecidableEq, Repr

/-- Stage-invocation counters standing in for the call counters / mocks the
spec's testable properties verify against (§8). -/
structure CallCounts where
  retrievalCalls : ℕ
  generationCalls : ℕ
  analysisCalls : ℕ
  selectorUpdateCalls : ℕ
deriving DecidableEq, Repr

/-- Outcome of one orchestrated review cycle: the caller-visible result, the
selector state after the cycle, and the stage-call counters. -/
structure CycleOutcome where
  result : RunResult
  finalState : SelectorState
  calls : CallCounts
deriving DecidableEq

/-- Modelled from the spec: size bucket by total changed lines,
tiny/small/medium/large (§3 SelectorState; the exact thresholds are
unspecified, representative constants are chosen). -/
def sizeBucket (n : ℕ) : String :=
  if n ≤ 10 then "tiny" else if n ≤ 100 then "small"
  else if n ≤ 500 then "medium" else "large"

/-- Modelled from the spec: the primary language of a change set (§3; taken
as the first file's language). -/
def primaryLanguage (cs : ChangeSet) : String :=
  (cs.files.head?.map (fun f => f.language)).getD "none"

/-- Modelled from the spec: the context bucket key derived from primary
language and size bucket (§3). -/
def bucketKeyOf (cs : ChangeSet) : String :=
  primaryLanguage cs ++ ":" ++ sizeBucket cs.totalLines

/-- Modelled from the spec: the bounded self-retry budget for generation
(§7 GenerationError, default 1 retry). -/
def retryBudget : ℕ := 1

/-- Modelled from the spec: invoke the generation backend at attempt `i`,
retrying on error while fuel remains (§7). -/
def attemptGeneration (gen : ℕ → Except EngineError String) : ℕ → ℕ → Except EngineError String
  | i, 0 => gen i
  | i, fuel + 1 =>
    match gen i with
    | Except.ok t => Except.ok t
    | Except.error _ => attemptGeneration gen (i + 1) fuel

/-- Modelled from the spec: the environment of one review cycle — the
change-set input, the knowledge store, and the black-box collaborators
(embedding, similarity, generation backend, static-analysis adapters, reward
policy) plus the selector's exploration randomness, all passed explicitly. -/
structure Env where
  prExists : Bool
  changeSet : ChangeSet
  store : KnowledgeStore
  sim : List ℚ → List ℚ → ℚ
  embed : String → List ℚ
  minScore : ℚ
  eps : ℚ
  randVal : ℚ
  randStrat : Strategy
  genAttempt : ℕ → Except EngineError String
  adapters : String → AdapterResult
  rewardFn : String → List Finding → ℚ

/-- Modelled from the spec: the state machine body from `Validated` onward
(§4.5): retrieve context, select a strategy, generate (with bounded retry),
merge static findings, score, update the selector, emit the result. A
`GenerationError` makes the cycle terminate in the failure state with no
selector update. -/
def runFrom (env : Env) (st : SelectorState) : CycleOutcome :=
  let ctx := retrieve env.sim env.embed env.minScore env.changeSet env.store
  let key := bucketKeyOf env.changeSet
  let strat := select st key env.eps env.randVal env.randStrat
  match attemptGeneration env.genAttempt 0 retryBudget with
  | Except.error _ => ⟨RunResult.failed EngineError.generationError, st, ⟨1, 1, 0, 0⟩⟩
  | Except.ok text =>
    let findings := analyze env.adapters env.changeSet
    let signal := max 0 (min 1 (env.rewardFn text findings))
    let rr : ReviewResult := ⟨strat, ctx.map (fun p => (p.1.id, p.2)), text, findings, signal⟩
    ⟨RunResult.completed rr, updateStats st key strat signal, ⟨1, 1, 1, 1⟩⟩

/-- Modelled from the spec: the full orchestrator with the unconditional
first existence check — `Start → Rejected` short-circuits every later stage
(§4.5). -/
def runCycle (env : Env) (st : SelectorState) : CycleOutcome :=
  if env.prExists then runFrom env st
  else ⟨RunResult.rejected, st, ⟨0, 0, 0, 0⟩⟩

/-- Modelled from the testing report (src/BlackBoxTesting/RAG version
1.3/Testing_2/Testing_Report.md, "PR-404 Handling Failed": on a missing PR the
shipped system "continues with ingestion, retrieval, review generation,
selector learning, and external calls" instead of stopping): the shipped
orchestrator runs the whole pipeline without the existence check. -/
def runCycleShipped (env : Env) (st : SelectorState) : CycleOutcome :=
  runFrom env st

/-- Concrete change set used by the closed check theorems: one Rust file,
PR number 404. -/
def sampleChangeSet : ChangeSet :=
  ⟨"yaksh", "pull-panda", 404, [⟨"src/main.rs", "rust", 3, 1, "fn main() -> ()"⟩], 4⟩

/-- Concrete cycle environment whose static-analysis adapter is unavailable
for every language and whose generation backend succeeds. -/
def envRust : Env :=
  ⟨true, sampleChangeSet, ⟨[]⟩, fun _ _ => 0, fun _ => [], 0, 0, 0, Strategy.ZeroShot,
    fun _ => Except.ok "looks good", fun _ => AdapterResult.toolUnavailable, fun _ _ => 1⟩

/-- Concrete cycle environment for a PR that does not exist (`prExists` is
false). -/
def env404 : Env :=
  ⟨false, sampleChangeSet, ⟨[]⟩, fun _ _ => 0, fun _ => [], 0, 0, 0, Strategy.ZeroShot,
    fun _ => Except.ok "review", fun _ => AdapterResult.toolUnavailable, fun _ _ => 1⟩

/-- Concrete cycle environment whose generation backend raises
`GenerationError` on every call. -/
def envGenFail : Env :=
  ⟨true, sampleChangeSet, ⟨[]⟩, fun _ _ => 0, fun _ => [], 0, 0, 0, Strategy.ZeroShot,
    fun _ => Except.error EngineError.generationError,
    fun _ => AdapterResult.available [], fun _ _ => 1⟩

/-- Translated from src/Dashboard/client/src/lib/apiClient.ts: the part of a
fetch `Response` that `apiFetch` inspects — the HTTP status and raw body. -/
structure FetchResponse where
  status : ℕ
  body : String
deriving DecidableEq, Repr

/-- Translated from src/Dashboard/client/src/lib/apiClient.ts: `res.ok` is
true exactly when the status is in 200–299. -/
def respOk (r : FetchResponse) : Bool :=
  200 ≤ r.status && r.status < 300

/-- Translated from src/Dashboard/client/src/lib/apiClient.ts (`apiFetch`,
lines 18–33): on a non-ok response, first redirect the browser to /login when
the status is exactly 401, then throw `Error("API error: <status>")`; on an ok
response return the parsed JSON body (`res.json()`, which itself rejects when
the body is not JSON). The browser redirect is returned as the first
component; the thrown-or-returned outcome as the second; JSON parsing is the
black-box `parseJson`. -/
def apiFetch {α : Type} (parseJson : String → Option α) (res : FetchResponse) :
    Option String × Except String α :=
  if respOk res = false then
    ((if res.status = 401 then some "/login" else none),
      Except.error ("API error: " ++ toString res.status))
  else
    (none,
      match parseJson res.body with
      | some j => Except.ok j
      | none => Except.error "invalid json")

theorem bestOf_le (f : Strategy → ℚ) :
    ∀ (l : List Strategy) (b : Strategy), f b ≤ f (bestOf f b l) := by
  intro l
  induction l with
  | nil => intro b; exact le_refl _
  | cons s rest ih =>
    intro b
    show f b ≤ f (bestOf f (if f b < f s then s else b) rest)
    by_cases h : f b < f s
    · simp only [h, if_true]
      exact le_trans (le_of_lt h) (ih s)
    · simp only [h, if_false]
      exact ih b

theorem bestOf_mem_le (f : Strategy → ℚ) :
    ∀ (l : List Strategy) (b : Strategy) (s : Strategy), s ∈ l → f s ≤ f (bestOf f b l) := by
  intro l
  induction l with
  | nil => intro b s hs; cases hs
  | cons a rest ih =>
    intro b s hs
    rcases List.mem_cons.mp hs with h | h
    · subst h
      show f s ≤ f (bestOf f (if f b < f s then s else b) rest)
      by_cases hb : f b < f s
      · simp only [hb, if_true]; exact bestOf_le f rest s
      · simp only [hb, if_false]
        exact le_trans (le_of_not_lt hb) (bestOf_le f rest b)
    · exact ih _ s h

theorem greedySelect_le (st : SelectorState) (key : String) (s : Strategy) :
    avgReward st key s ≤ avgReward st key (greedySelect st key) := by
  cases s
  · exact bestOf_le (avgReward st key) _ ZeroShot
  all_goals
    exact bestOf_mem_le (avgReward st key) _ ZeroShot _ (by simp)

theorem greedySelect_tiebreak (st : SelectorState) (key : String) :
    ∀ s, avgReward st key s = avgReward st key (greedySelect st key) →
      priorityIndex (greedySelect st key) ≤ priorityIndex s := by
  simp only [greedySelect, bestOf]
  split_ifs <;> (intro s heq; cases s <;> simp only [priorityIndex] at heq ⊢ <;>
    first | omega | (exfalso ; linarith))

theorem avgReward_eq_ratio (st : SelectorState) (key : String) (s : Strategy)
    (h : (getStats st key s).trials ≠ 0) : avgReward st key s = ratioReward st key s := by
  simp [avgReward, ratioReward, h]

/-- C2: with ε = 0 the epsilon-greedy `select` is a pure function of the state
and bucket key: for any nonnegative random draw and any random strategy it
equals the greedy choice, which (when every strategy has at least one trial)
has the highest average reward `totalReward / trials` in the bucket and, among
strategies tying that average, the smallest index in the fixed priority order
ZeroShot > ChainOfThought > TreeOfThought > SelfConsistency > Meta. -/
theorem select_eps_zero_pure_greedy (st : SelectorState) (key : String)
    (randVal : ℚ) (randStrat : Strategy) (hr : 0 ≤ randVal)
    (ht : ∀ s, (getStats st key s).trials ≠ 0) :
    select st key 0 randVal randStrat = greedySelect st key ∧
    (∀ s, ratioReward st key s ≤ ratioReward st key (select st key 0 randVal randStrat)) ∧
    (∀ s, ratioReward st key s = ratioReward st key (select st key 0 randVal randStrat) →
      priorityIndex (select st key 0 randVal randStrat) ≤ priorityIndex s) := by
  have hsel : select st key 0 randVal randStrat = greedySelect st key := by
    simp [select, not_lt.mpr hr]
  refine ⟨hsel, ?_, ?_⟩
  · intro s
    rw [hsel, ← avgReward_eq_ratio st key s (ht s),
      ← avgReward_eq_ratio st key _ (ht _)]
    exact greedySelect_le st key s
  · intro s heq
    rw [hsel] at heq ⊢
    rw [← avgReward_eq_ratio st key s (ht s), ← avgReward_eq_ratio st key _ (ht _)] at heq
    exact greedySelect_tiebreak st key s heq

/-- Closed instance of `select_eps_zero_pure_greedy` at a concrete state. -/
theorem select_eps_zero_pure_greedy_check :
    0 ≤ (1 / 2 : ℚ) ∧
    (∀ s, (getStats [(("py:small", Strategy.ZeroShot), ⟨2, 1⟩),
        (("py:small", Strategy.ChainOfThought), ⟨1, 1⟩),
        (("py:small", Strategy.TreeOfThought), ⟨1, 0⟩),
        (("py:small", Strategy.SelfConsistency), ⟨1, 1⟩),
        (("py:small", Strategy.Meta), ⟨4, 1⟩)] "py:small" s).trials ≠ 0) ∧
    (select [(("py:small", Strategy.ZeroShot), ⟨2, 1⟩),
        (("py:small", Strategy.ChainOfThought), ⟨1, 1⟩),
        (("py:small", Strategy.TreeOfThought), ⟨1, 0⟩),
        (("py:small", Strategy.SelfConsistency), ⟨1, 1⟩),
        (("py:small", Strategy.Meta), ⟨4, 1⟩)] "py:small" 0 (1 / 2) Strategy.Meta =
      greedySelect [(("py:small", Strategy.ZeroShot), ⟨2, 1⟩),
        (("py:small", Strategy.ChainOfThought), ⟨1, 1⟩),
        (("py:small", Strategy.TreeOfThought), ⟨1, 0⟩),
        (("py:small", Strategy.SelfConsistency), ⟨1, 1⟩),
        (("py:small", Strategy.Meta), ⟨4, 1⟩)] "py:small") :=
  ⟨by norm_num, by decide,
    (select_eps_zero_pure_greedy _ "py:small" (1 / 2) Strategy.Meta (by norm_num)
      (by decide)).1⟩

theorem getStats_updateStats_self (st : SelectorState) (k : String) (s : Strategy) (r : ℚ) :
    getStats (updateStats st k s r) k s =
      ⟨(getStats st k s).trials + 1, (getStats st k s).totalReward + r⟩ := by
  induction st with
  | nil => simp [updateStats, getStats]
  | cons e rest ih =>
    by_cases h : e.1 = (k, s)
    · simp [updateStats, getStats, h]
    · simp [updateStats, getStats, h, ih]

/-- C3: N applications of the (serialized, hence atomic — §5) `update` for the
same bucket/strategy pair, each adding reward r, land the entry at exactly
trials = N and totalReward = N·r when the entry started at zero. Concurrency
is modelled by the spec's mandated serialization: the N concurrent calls
execute as N sequential atomic read-modify-writes, so no update is lost. -/
theorem concurrent_updates_exact (k : String) (s : Strategy) (r : ℚ) (N : ℕ)
    (st0 : SelectorState) (h : getStats st0 k s = ⟨0, 0⟩) :
    getStats ((fun st => updateStats st k s r)^[N] st0) k s = ⟨N, (N : ℚ) * r⟩ := by
  induction N with
  | zero => simpa using h
  | succ n ih =>
    rw [Function.iterate_succ_apply', getStats_updateStats_self, ih]
    simp only [StrategyStats.mk.injEq, Nat.add_right_cancel_iff, true_and]
    push_cast
    ring

/-- Closed instance of `concurrent_updates_exact`: three updates of reward 1/2
on an initially empty state land at trials = 3, totalReward = 3/2. -/
theorem concurrent_updates_exact_check :
    getStats ([] : SelectorState) "py:small" Strategy.ZeroShot = ⟨0, 0⟩ ∧
    getStats ((fun st => updateStats st "py:small" Strategy.ZeroShot (1 / 2))^[3] [])
        "py:small" Strategy.ZeroShot = ⟨3, (3 : ℚ) * (1 / 2)⟩ :=
  ⟨rfl, concurrent_updates_exact "py:small" Strategy.ZeroShot (1 / 2) 3 [] rfl⟩

theorem strategyOfName_strategyName (s : Strategy) :
    strategyOfName (strategyName s) = some s := by
  cases s <;> rfl

/-- C4: persisting a `SelectorState` and loading it back succeeds and yields a
state field-for-field equal to the original — every entry's trials and
totalReward are reproduced exactly (load ∘ save = identity), which in
particular keeps totalReward within any tolerance. -/
theorem loadState_saveState (st : SelectorState) : loadState (saveState st) = some st := by
  induction st with
  | nil => rfl
  | cons e rest ih =>
    obtain ⟨⟨k, s⟩, ⟨t, w⟩⟩ := e
    simp only [saveState] at ih
    simp [saveState, loadState, strategyOfName_strategyName, ih]

theorem dedupById_sublist : ∀ l, List.Sublist (dedupById l) l := by
  have H : ∀ n (l : List (KnowledgeDocument × ℚ)), l.length ≤ n → List.Sublist (dedupById l) l := by
    intro n
    induction n with
    | zero =>
      intro l hl
      rw [Nat.le_zero, List.length_eq_zero] at hl
      subst hl
      simp [dedupById]
    | succ n ih =>
      intro l hl
      cases l with
      | nil => simp [dedupById]
      | cons p rest =>
        rw [dedupById]
        refine List.Sublist.cons₂ p ?_
        exact (ih _ (le_trans (List.length_filter_le _ _)
          (Nat.le_of_succ_le_succ hl))).trans (List.filter_sublist rest)
  exact fun l => H l.length l le_rfl

theorem dedupById_nodup_ids : ∀ l, ((dedupById l).map (fun p => p.1.id)).Nodup := by
  have H : ∀ n (l : List (KnowledgeDocument × ℚ)), l.length ≤ n →
      ((dedupById l).map (fun p => p.1.id)).Nodup := by
    intro n
    induction n with
    | zero =>
      intro l hl
      rw [Nat.le_zero, List.length_eq_zero] at hl
      subst hl
      simp [dedupById]
    | succ n ih =>
      intro l hl
      cases l with
      | nil => simp [dedupById]
      | cons p rest =>
        rw [dedupById]
        simp only [List.map_cons, List.nodup_cons]
        constructor
        · intro hmem
          rcases List.mem_map.mp hmem with ⟨q, hq, hid⟩
          have hq' : q ∈ rest.filter (fun q => q.1.id ≠ p.1.id) :=
            (dedupById_sublist _).subset hq
          have := (List.mem_filter.mp hq').2
          simp only [ne_eq, decide_not, Bool.not_eq_true', decide_eq_false_iff_not] at this
          exact this hid
        · exact ih _ (le_trans (List.length_filter_le _ _) (Nat.le_of_succ_le_succ hl))
  exact fun l => H l.length l le_rfl

/-- C5: ingestion is a full atomic replace (§4.1), so ingesting the same
document collection twice yields a store equal to — and in particular
behaviorally indistinguishable from — ingesting it once: every subsequent
query returns the same results in the same order. -/
theorem ingest_idempotent (embed : String → List ℚ) (input : List (String × List String))
    (store : KnowledgeStore) :
    ingest embed input (ingest embed input store) = ingest embed input store ∧
    ∀ (sim : List ℚ → List ℚ → ℚ) (v : List ℚ) (k : ℕ),
      query sim (ingest embed input (ingest embed input store)) v k =
        query sim (ingest embed input store) v k :=
  ⟨rfl, fun _ _ _ => rfl⟩

/-- C6: every retrieved context holds at most `topK` scored documents, no two
entries share a document id, and the sequence is sorted by similarity score
descending with ties broken by document id ascending. -/
theorem retrieve_bounded_nodup_sorted (sim : List ℚ → List ℚ → ℚ)
    (embed : String → List ℚ) (minScore : ℚ) (cs : ChangeSet) (store : KnowledgeStore) :
    (retrieve sim embed minScore cs store).length ≤ topK ∧
    ((retrieve sim embed minScore cs store).map (fun p => p.1.id)).Nodup ∧
    (retrieve sim embed minScore cs store).Pairwise
      (fun a b => b.2 < a.2 ∨ (a.2 = b.2 ∧ a.1.id < b.1.id)) := by
  by_cases hs : store.docs = []
  · simp [retrieve, query, hs]
  · have hret : retrieve sim embed minScore cs store =
        (dedupById ((rankDocs sim (embed (queryText cs)) store.docs).take topK)).filter
          (fun p => minScore ≤ p.2) := by
      simp [retrieve, query, hs]
    set base := (rankDocs sim (embed (queryText cs)) store.docs).take topK with hbase
    have hfil : List.Sublist (retrieve sim embed minScore cs store) (dedupById base) := by
      rw [hret]; exact List.filter_sublist _
    refine ⟨?_, ?_, ?_⟩
    · calc (retrieve sim embed minScore cs store).length
          ≤ (dedupById base).length := hfil.length_le
        _ ≤ base.length := (dedupById_sublist base).length_le
        _ ≤ topK := by rw [hbase]; exact List.length_take_le _ _
    · exact (dedupById_nodup_ids base).sublist (hfil.map _)
    · have hsorted : base.Pairwise rankRel := by
        rw [hbase]
        exact List.Pairwise.sublist (List.take_sublist _ _)
          (List.sorted_insertionSort rankRel _)
      have hp : (retrieve sim embed minScore cs store).Pairwise rankRel :=
        (hsorted.sublist (dedupById_sublist base)).sublist hfil
      have hids : (retrieve sim embed minScore cs store).Pairwise
          (fun a b => a.1.id ≠ b.1.id) := by
        have := (dedupById_nodup_ids base).sublist (hfil.map _)
        exact List.pairwise_map.mp this
      refine (hp.and hids).imp ?_
      rintro a b ⟨hr | ⟨he, hle⟩, hne⟩
      · exact Or.inl hr
      · exact Or.inr ⟨he, lt_of_le_of_ne hle hne⟩

/-- C7: retrieval never surfaces a document scored below the relevance floor,
and it is total — on an empty Knowledge Store (or when the floor filters out
every candidate) it returns the empty context rather than failing, as its
list-valued type shows. -/
theorem retrieve_floor_and_empty_store (sim : List ℚ → List ℚ → ℚ)
    (embed : String → List ℚ) (minScore : ℚ) (cs : ChangeSet) (store : KnowledgeStore) :
    (retrieve sim embed minScore cs store).all (fun p => minScore ≤ p.2) = true ∧
    retrieve sim embed minScore cs ⟨[]⟩ = [] := by
  constructor
  · by_cases hs : store.docs = []
    · simp [retrieve, query, hs]
    · have hret : retrieve sim embed minScore cs store =
          (dedupById ((rankDocs sim (embed (queryText cs)) store.docs).take topK)).filter
            (fun p => minScore ≤ p.2) := by
        simp [retrieve, query, hs]
      rw [hret]
      refine List.all_eq_true.mpr ?_
      intro x hx
      exact (List.mem_filter.mp hx).2
  · rfl

theorem dedupFindings_sublist : ∀ l, List.Sublist (dedupFindings l) l := by
  have H : ∀ n (l : List Finding), l.length ≤ n → List.Sublist (dedupFindings l) l := by
    intro n
    induction n with
    | zero =>
      intro l hl
      rw [Nat.le_zero, List.length_eq_zero] at hl
      subst hl
      simp [dedupFindings]
    | succ n ih =>
      intro l hl
      cases l with
      | nil => simp [dedupFindings]
      | cons f rest =>
        rw [dedupFindings]
        refine List.Sublist.cons₂ f ?_
        exact (ih _ (le_trans (List.length_filter_le _ _)
          (Nat.le_of_succ_le_succ hl))).trans (List.filter_sublist rest)
  exact fun l => H l.length l le_rfl

theorem dedupFindings_exists_of_exists (p : Finding → Bool)
    (hkey : ∀ a b, findingKey a = findingKey b → p a = p b) :
    ∀ l, (∃ a ∈ l, p a = true) → ∃ b ∈ dedupFindings l, p b = true := by
  have H : ∀ n (l : List Finding), l.length ≤ n → (∃ a ∈ l, p a = true) →
      ∃ b ∈ dedupFindings l, p b = true := by
    intro n
    induction n with
    | zero =>
      intro l hl
      rw [Nat.le_zero, List.length_eq_zero] at hl
      subst hl
      rintro ⟨a, ha, -⟩
      cases ha
    | succ n ih =>
      intro l hl hex
      cases l with
      | nil => rcases hex with ⟨a, ha, -⟩; cases ha
      | cons f rest =>
        rw [dedupFindings]
        by_cases hf : p f = true
        · exact ⟨f, List.mem_cons_self f _, hf⟩
        · rcases hex with ⟨a, ha, hpa⟩
          rcases List.mem_cons.mp ha with rfl | ha
          · exact absurd hpa hf
          · have hne : findingKey a ≠ findingKey f := by
              intro hk
              exact hf (hkey a f hk ▸ hpa)
            have ha' : a ∈ rest.filter (fun g => findingKey g ≠ findingKey f) :=
              List.mem_filter.mpr ⟨ha, by simpa using hne⟩
            rcases ih _ (le_trans (List.length_filter_le _ _)
              (Nat.le_of_succ_le_succ hl)) ⟨a, ha', hpa⟩ with ⟨b, hb, hpb⟩
            exact ⟨b, List.mem_cons_of_mem f hb, hpb⟩
  exact fun l => H l.length l le_rfl

theorem dedupFindings_countP_one (p : Finding → Bool)
    (hkey : ∀ a b, findingKey a = findingKey b → p a = p b)
    (l : List Finding) (h : l.countP p = 1) : (dedupFindings l).countP p = 1 := by
  have hle : (dedupFindings l).countP p ≤ 1 :=
    h ▸ (dedupFindings_sublist l).countP_le p
  have hpos : 0 < (dedupFindings l).countP p := by
    rw [List.countP_pos_iff]
    exact dedupFindings_exists_of_exists p hkey l
      (List.countP_pos_iff.mp (by omega))
  omega

theorem countP_flatMap_zero (p : Finding → Bool) (g : String → List Finding) :
    ∀ langs : List String, (∀ L' ∈ langs, (g L').countP p = 0) →
      (langs.flatMap g).countP p = 0 := by
  intro langs
  induction langs with
  | nil => intro _; rfl
  | cons a rest ih =>
    intro h
    rw [List.flatMap_cons, List.countP_append, h a (List.mem_cons_self a rest),
      ih (fun L' hL' => h L' (List.mem_cons_of_mem a hL'))]

theorem countP_flatMap_one (p : Finding → Bool) (g : String → List Finding) (L : String) :
    ∀ langs : List String, langs.Nodup → L ∈ langs → (g L).countP p = 1 →
      (∀ L' ∈ langs, L' ≠ L → (g L').countP p = 0) →
      (langs.flatMap g).countP p = 1 := by
  intro langs
  induction langs with
  | nil => intro _ hm; cases hm
  | cons a rest ih =>
    intro hnd hm h1 h0
    rw [List.nodup_cons] at hnd
    rw [List.flatMap_cons, List.countP_append]
    rcases List.mem_cons.mp hm with rfl | hm
    · rw [h1, countP_flatMap_zero p g rest (fun L' hL' =>
        h0 L' (List.mem_cons_of_mem _ hL') (fun he => hnd.1 (he ▸ hL')))]
    · rw [h0 a (List.mem_cons_self a rest) (fun he => hnd.1 (he ▸ hm)),
        ih hnd.2 hm h1 (fun L' hL' => h0 L' (List.mem_cons_of_mem a hL'))]

theorem degradedRuleId_inj {a b : String} (h : degradedRuleId a = degradedRuleId b) :
    a = b := by
  unfold degradedRuleId at h
  have h2 := congrArg String.data h
  rw [String.data_append, String.data_append] at h2
  exact String.ext (List.append_cancel_left h2)

/-- C8: when a language's static-analysis adapter signals `ToolUnavailable`
(and real tool findings do not use the reserved degraded-coverage rule id),
`analyze` records exactly one informational degraded-coverage finding for
that language, and the review cycle still runs to completion — a
`ToolUnavailable` adapter never fails the cycle. -/
theorem tool_unavailable_single_finding_cycle_completes (env : Env)
    (st : SelectorState) (L : String) (t : String)
    (hpr : env.prExists = true)
    (hL : env.adapters L = AdapterResult.toolUnavailable)
    (hmem : L ∈ distinctLanguages env.changeSet)
    (hres : ∀ L' fs, env.adapters L' = AdapterResult.available fs →
      ∀ f ∈ fs, f.ruleId ≠ degradedRuleId L)
    (hgen : env.genAttempt 0 = Except.ok t) :
    (analyze env.adapters env.changeSet).countP
        (fun f => decide (f.ruleId = degradedRuleId L)) = 1 ∧
    ∃ r, (runCycle env st).result = RunResult.completed r := by
  constructor
  · set p : Finding → Bool := fun f => decide (f.ruleId = degradedRuleId L) with hp
    set g : String → List Finding := fun lang =>
      match env.adapters lang with
      | AdapterResult.available fs => fs
      | AdapterResult.toolUnavailable => [degradedFinding lang] with hg
    have hkey : ∀ a b, findingKey a = findingKey b → p a = p b := by
      intro a b hk
      have : a.ruleId = b.ruleId := congrArg (fun q => q.2.2) hk
      simp [hp, this]
    have hflat : ((distinctLanguages env.changeSet).flatMap g).countP p = 1 := by
      refine countP_flatMap_one p g L _ (List.nodup_dedup _) hmem ?_ ?_
      · simp [hg, hL, hp, List.countP_cons, degradedFinding]
      · intro L' _ hne
        rcases hA : env.adapters L' with fs | _
        · simp only [hg, hA]
          rw [List.countP_eq_zero]
          intro f hf
          simp [hp, hres L' fs hA f hf]
        · simp only [hg, hA]
          have : degradedRuleId L' ≠ degradedRuleId L := fun h => hne (degradedRuleId_inj h)
          simp [hp, List.countP_cons, degradedFinding, this]
    have hdedup := dedupFindings_countP_one p hkey _ hflat
    calc (analyze env.adapters env.changeSet).countP p
        = (dedupFindings ((distinctLanguages env.changeSet).flatMap g)).countP p :=
          (List.perm_insertionSort findingLE _).countP_eq p
      _ = 1 := hdedup
  · rw [runCycle, if_pos (by rw [hpr])]
    rw [runFrom]
    have hat : attemptGeneration env.genAttempt 0 retryBudget = Except.ok t := by
      rw [retryBudget, attemptGeneration, hgen]
    rw [hat]
    exact ⟨_, rfl⟩

/-- Closed instance of `tool_unavailable_single_finding_cycle_completes` for a
Rust change set whose adapter is unavailable. -/
theorem tool_unavailable_single_finding_check :
    (analyze envRust.adapters envRust.changeSet).countP
        (fun f => decide (f.ruleId = degradedRuleId "rust")) = 1 ∧
    ∃ r, (runCycle envRust []).result = RunResult.completed r :=
  tool_unavailable_single_finding_cycle_completes envRust [] "rust" "looks good"
    rfl rfl (by decide) (fun _ _ h => nomatch h) rfl

/-- C9: when the generation backend raises `GenerationError` on every attempt
(so also after the bounded retry budget), the cycle result is
`Failed(GenerationError)` and the selector state is returned unchanged — no
trials increment, no totalReward change, no selector update call. -/
theorem generation_error_fails_cycle_state_unchanged (env : Env) (st : SelectorState)
    (hpr : env.prExists = true)
    (hgen : ∀ i, env.genAttempt i = Except.error EngineError.generationError) :
    (runCycle env st).result = RunResult.failed EngineError.generationError ∧
    (runCycle env st).finalState = st ∧
    (runCycle env st).calls.selectorUpdateCalls = 0 := by
  have hat : ∀ fuel i, attemptGeneration env.genAttempt i fuel =
      Except.error EngineError.generationError := by
    intro fuel
    induction fuel with
    | zero => intro i; simp [attemptGeneration, hgen i]
    | succ n ih => intro i; simp [attemptGeneration, hgen i, ih]
  refine ⟨?_, ?_, ?_⟩ <;> simp [runCycle, hpr, runFrom, hat]

/-- Closed instance of `generation_error_fails_cycle_state_unchanged` at a
concrete always-failing backend. -/
theorem generation_error_check :
    (runCycle envGenFail []).result = RunResult.failed EngineError.generationError ∧
    (runCycle envGenFail []).finalState = [] ∧
    (runCycle envGenFail []).calls.selectorUpdateCalls = 0 :=
  generation_error_fails_cycle_state_unchanged envGenFail [] rfl (fun _ => rfl)

/-- C1 divergence evidence: at an environment whose PR does not exist, the
shipped orchestrator (modelled from the repository's v1.3 black-box testing
report, which records PR-404 handling as FAILED) still performs retrieval,
generation, analysis and the selector update, and its result is not
`Rejected` — the claim instead requires `Rejected` with zero downstream
calls. -/
theorem pr404_shipped_continues :
    env404.prExists = false ∧
    (runCycleShipped env404 []).calls.retrievalCalls = 1 ∧
    (runCycleShipped env404 []).calls.generationCalls = 1 ∧
    (runCycleShipped env404 []).calls.selectorUpdateCalls = 1 ∧
    (runCycleShipped env404 []).result ≠ RunResult.rejected := by
  refine ⟨rfl, rfl, rfl, rfl, ?_⟩
  decide

/-- C10: for every non-ok response `apiFetch` throws `Error` with message
"API error: <status>" (redirecting to /login exactly when the status is 401)
and returns no value, and every value it does return is the parsed JSON body
of an ok response — a caller never receives an error-status or non-JSON
result presented as success. -/
theorem apiFetch_contract {α : Type} (parseJson : String → Option α) (res : FetchResponse) :
    (respOk res = false →
      (apiFetch parseJson res).2 = Except.error ("API error: " ++ toString res.status) ∧
      (apiFetch parseJson res).1 = (if res.status = 401 then some "/login" else none)) ∧
    (∀ j, (apiFetch parseJson res).2 = Except.ok j →
      respOk res = true ∧ parseJson res.body = some j) := by
  constructor
  · intro h
    simp [apiFetch, h]
  · intro j hj
    by_cases h : respOk res = false
    · simp [apiFetch, h] at hj
    · have h' : respOk res = true := by
        revert h; cases respOk res <;> simp
      refine ⟨h', ?_⟩
      simp only [apiFetch, h', Bool.true_eq_false, if_false] at hj
      cases hp : parseJson res.body with
      | some j' =>
        rw [hp] at hj
        simpa using hj
      | none =>
        rw [hp] at hj
        simp at hj

/-- Closed instance of `apiFetch_contract`: a 401 response throws
"API error: 401" after redirecting to /login, and an ok response returns its
parsed body. -/
theorem apiFetch_contract_check :
    respOk ⟨401, "x"⟩ = false ∧
    ((apiFetch (fun s => some s) ⟨401, "x"⟩).2 =
        Except.error ("API error: " ++ toString (⟨401, "x"⟩ : FetchResponse).status) ∧
      (apiFetch (fun s => some s) ⟨401, "x"⟩).1 =
        (if (⟨401, "x"⟩ : FetchResponse).status = 401 then some "/login" else none)) ∧
    (respOk ⟨200, "y"⟩ = true ∧ (fun s => some s) (⟨200, "y"⟩ : FetchResponse).body = some "y") :=
  ⟨rfl, (apiFetch_contract (fun s => some s) ⟨401, "x"⟩).1 rfl,
    (apiFetch_contract (fun s => some s) ⟨200, "y"⟩).2 "y" rfl⟩

end PRReview
